import Mathlib

/-!
Shallow embedding of the Heart-Disease-Predictor repository
(`model.py`, the trainer script, and `app.py`, the Flask predictor).

Tables are modelled column-major: a table is an ordered list of
`(column name, column values)` pairs, mirroring a pandas `DataFrame`.
A cell is either a rational number (pandas numeric) or a string
(pandas `object` entries).  `NaN` cells produced at inference time by
`pd.to_numeric(errors=coerce)` are modelled as `Option ℚ` with `none`
standing for `NaN`.
-/

/-- A single table cell: a numeric value or a string, as pandas stores them. -/
inductive Cell where
  | num (q : ℚ)
  | str (s : String)
deriving DecidableEq, Repr

/-- A dataframe, column-major: ordered list of (name, values). -/
abbrev Table := List (String × List Cell)

/-- `c in data.columns` for our column-major table. -/
def hasCol (t : Table) (c : String) : Bool :=
  t.any (fun p => p.1 = c)

/-- `data.rename(columns=\x7bold: new\x7d)`: every column named `old` is renamed
to `new`; positions and values are untouched. -/
def renameCol (old new : String) (t : Table) : Table :=
  t.map (fun p => if p.1 = old then (new, p.2) else p)

/-- `EXPECTED_FEATURES` from `model.py`. -/
def EXPECTED_FEATURES : List String :=
  ["age", "sex", "cp", "trestbps", "chol", "fbs", "restecg",
   "thalach", "exang", "oldpeak", "slope", "ca", "thal"]

/-- `TARGET_FEATURE` from `model.py`. -/
def TARGET_FEATURE : String := "target"

/-- `COL_MAPPING` from `model.py`: alternative source names per canonical
column; columns without an entry get `[]` (the code's `COL_MAPPING.get(c, [])`). -/
def COL_MAPPING (c : String) : List String :=
  if c = "thalach" then ["thalachh", "max_hr", "max_heart_rate", "thalch"]
  else if c = "trestbps" then ["bp", "resting_bp", "blood_pressure"]
  else if c = "chol" then ["cholesterol", "serum_chol"]
  else if c = "cp" then ["chest_pain_type"]
  else if c = "target" then ["output", "num", "diagnosis"]
  else []

/-- All canonical columns the trainer resolves: the label plus the 13 features. -/
def canonicalCols : List String := TARGET_FEATURE :: EXPECTED_FEATURES

/-- Step 3a of `model.py`: locate the target column (exact name first, then
the first matching alternative) and rename it to `target`; `none` models the
`sys.exit(1)` taken when no candidate is found. -/
def resolveTarget (t : Table) : Option Table :=
  if hasCol t TARGET_FEATURE then some t
  else
    match (COL_MAPPING TARGET_FEATURE).find? (fun a => hasCol t a) with
    | some a => some (renameCol a TARGET_FEATURE t)
    | none => none

/-- The mutable state of the step-3b loop of `model.py`: the dataframe being
renamed, the accumulated `final_features`, and the accumulated
`missing_features`. -/
structure FeatState where
  tbl : Table
  finalFeats : List String
  missing : List String
deriving Repr

/-- One iteration of the step-3b loop of `model.py` for one expected column:
exact match keeps the table and records the feature; otherwise the first
alternative present is renamed to the canonical name; otherwise the column is
recorded missing. -/
def featStep (s : FeatState) (c : String) : FeatState :=
  if hasCol s.tbl c then
    { s with finalFeats := s.finalFeats ++ [c] }
  else
    match (COL_MAPPING c).find? (fun a => hasCol s.tbl a) with
    | some a =>
        { tbl := renameCol a c s.tbl
          finalFeats := s.finalFeats ++ [c]
          missing := s.missing }
    | none => { s with missing := s.missing ++ [c] }

/-- The two fatal exits of `model.py` step 3: target column unresolvable
(exits naming only the target), or feature columns unresolvable (exits naming
the list `missing_features`). -/
inductive ReconcileError where
  | missingTarget
  | missingFeatures (cols : List String)
deriving DecidableEq, Repr

/-- The column names printed by each fatal exit of `model.py` step 3. -/
def namedBy : ReconcileError → List String
  | .missingTarget => [TARGET_FEATURE]
  | .missingFeatures cols => cols

/-- Whole of `model.py` step 3: target resolution, then the feature loop,
then the `missing_features` check.  On success returns the renamed table and
`final_features`. -/
def reconcile (t : Table) : Except ReconcileError (Table × List String) :=
  match resolveTarget t with
  | none => .error .missingTarget
  | some t1 =>
      let s := EXPECTED_FEATURES.foldl featStep ⟨t1, [], []⟩
      if s.missing.isEmpty then .ok (s.tbl, s.finalFeats)
      else .error (.missingFeatures s.missing)

/-- A canonical column is resolvable from a table when its exact name or one
of its registered alternatives is present. -/
def resolvable (t : Table) (c : String) : Bool :=
  hasCol t c || (COL_MAPPING c).any (fun a => hasCol t a)

deriving instance DecidableEq for Except

/-! ### Trainer: data cleaning and encoding (`model.py` steps 4, 5, 9) -/

/-- Whether a cell is a string entry. -/
def cellIsStr : Cell → Bool
  | .str _ => true
  | .num _ => false

/-- A column has pandas `object` dtype when it holds string entries
(`data.select_dtypes(include=[object])`). -/
def colIsObject (vals : List Cell) : Bool := vals.any cellIsStr

/-- `string_cols` in `model.py`: the names of the object-typed columns,
snapshotted before any further transformation. -/
def stringCols (t : Table) : List String :=
  (t.filter (fun p => colIsObject p.2)).map (fun p => p.1)

/-- One cell of `data[sex].replace(\x7bMale: 1, Female: 0, M: 1, F: 0\x7d)`:
exactly those four string values are replaced, everything else is kept. -/
def sexReplaceCell : Cell → Cell
  | .str s =>
      if s = "Male" then .num 1
      else if s = "Female" then .num 0
      else if s = "M" then .num 1
      else if s = "F" then .num 0
      else .str s
  | c => c

/-- The `if sex in string_cols` block of `model.py`: the replace is applied
to the `sex` column only, and only when `sex` was object-typed. -/
def applySexReplace (t : Table) (scols : List String) : Table :=
  if "sex" ∈ scols then
    t.map (fun p => if p.1 = "sex" then (p.1, p.2.map sexReplaceCell) else p)
  else t

/-- Python `str()` of an entry of an object column, as used by `get_dummies`
to build dummy-column names: strings are kept verbatim; the integers written
into `sex` by the replace step print without a decimal point.  (Non-integer
rationals never occur in an object column of this pipeline; `toString` is a
total fallback for them.) -/
def cellStr : Cell → String
  | .str s => s
  | .num q => if q.den = 1 then toString q.num else toString q

/-- Insert a string into an already sorted list (ascending). -/
def insSorted (s : String) : List String → List String
  | [] => [s]
  | x :: xs => if s ≤ x then s :: x :: xs else x :: insSorted s xs

/-- Sort a list of strings ascending (pandas sorts the observed category
values to fix dummy-column order). -/
def sortStr (l : List String) : List String := l.foldr insSorted []

/-- The distinct observed category values of one column, sorted ascending —
the categories of `pd.get_dummies` for that column. -/
def dummyCats (vals : List Cell) : List String :=
  sortStr (vals.map cellStr).eraseDups

/-- The dummy columns `pd.get_dummies(..., drop_first=True)` produces for one
source column: one binary indicator per observed category except the first,
named `name_value`. -/
def dummyColsFor (name : String) (vals : List Cell) : Table :=
  ((dummyCats vals).drop 1).map (fun v =>
    (name ++ "_" ++ v,
     vals.map (fun c => Cell.num (if cellStr c = v then 1 else 0))))

/-- `pd.get_dummies(data, columns=cols, drop_first=True)`: the non-encoded
columns keep their order, the dummy groups are appended after them in source
column order. -/
def getDummiesTrain (t : Table) (cols : List String) : Table :=
  t.filter (fun p => p.1 ∉ cols) ++
    (t.filter (fun p => p.1 ∈ cols)).flatMap (fun p => dummyColsFor p.1 p.2)

/-- `model.py` step 4 in full: snapshot the object columns, run the `sex`
replace, then one-hot encode every column of the snapshot (including `sex`,
which is still listed in `string_cols` after the replace). -/
def encodeTable (t : Table) : Table :=
  let scols := stringCols t
  getDummiesTrain (applySexReplace t scols) scols

/-- `col.startswith(p)` on strings (Python / pandas). -/
def listPrefix : List Char → List Char → Bool
  | [], _ => true
  | _ :: _, [] => false
  | a :: as, b :: bs => a = b && listPrefix as bs

/-- `s.startswith(p)` for strings. -/
def strStartsWith (s p : String) : Bool := listPrefix p.toList s.toList

/-- `final_features` of `model.py` step 5: post-encoding columns kept iff
already in `initial_features` or named with a `thal_` or `cp_` prefix. -/
def selectFinalFeatures (encoded : Table) (initF : List String) : List String :=
  (encoded.map (fun p => p.1)).filter
    (fun c => c ∈ initF || strStartsWith c "thal_" || strStartsWith c "cp_")

/-- Number of rows of a (rectangular) table. -/
def nRows : Table → Nat
  | [] => 0
  | p :: _ => p.2.length

/-- Values of the column named `c` (first match), `[]` when absent. -/
def colValues (t : Table) (c : String) : List Cell :=
  ((t.find? (fun p => p.1 = c)).map (fun p => p.2)).getD []

/-- Row-major view of the columns `cols` of `t` (the matrix `data[cols]`). -/
def tableRows (t : Table) (cols : List String) : List (List Cell) :=
  (List.range (nRows t)).map (fun i => cols.map (fun c => (colValues t c).getD i (.num 0)))

/-- `X.replace(?, np.nan).dropna()`: rows containing a literal `?` cell are
dropped.  (True `NaN` cells are outside the `Cell` model; none arise in the
tables considered here.) -/
def cleanRows (rs : List (List Cell)) : List (List Cell) :=
  rs.filter (fun r => !(r.any (fun c => c = .str "?")))

/-- What a training run persists and feeds to `model.fit`: the ordered list
`list(X.columns)` saved in the artifact, and the matrix `X` whose rows the
model consumed. -/
structure TrainResult where
  features : List String
  X : List (List Cell)
deriving DecidableEq, Repr

/-- The trainer pipeline of `model.py` up to the artifact: reconcile columns
(step 3), encode (step 4), select `final_features` and build `X` (step 5),
clean rows, and save `list(X.columns)` (step 9).  Fitting and accuracy
reporting do not alter the artifact. -/
def trainArtifact (t : Table) : Except ReconcileError TrainResult :=
  match reconcile t with
  | .error e => .error e
  | .ok (tbl, initF) =>
      let enc := encodeTable tbl
      let finalF := selectFinalFeatures enc initF
      let xcols := finalF.filter (fun c => c ≠ TARGET_FEATURE)
      .ok ⟨xcols, cleanRows (tableRows enc xcols)⟩

/-! ### Predictor: `app.py` -/

/-- A prediction request record: the form data as key/value pairs
(`request.form.to_dict()`). -/
abbrev Record := List (String × String)

/-- Dictionary lookup on a request record (first matching key). -/
def lookupRecord (r : Record) (c : String) : Option String :=
  ((r.find? (fun p => p.1 = c)).map (fun p => p.2))

/-- `ORIGINAL_INPUT_FEATURES` from `app.py` (the 13 raw form fields). -/
def ORIGINAL_INPUT_FEATURES : List String :=
  ["age", "sex", "cp", "trestbps", "chol", "fbs", "restecg",
   "thalach", "exang", "oldpeak", "slope", "ca", "thal"]

/-- `CATEGORICAL_COLS` from `preprocess_input`. -/
def CATEGORICAL_COLS : List String := ["cp", "restecg", "slope", "ca", "thal"]

/-- Numeric value of an unsigned decimal digit string. -/
def digitsNat (cs : List Char) : ℕ :=
  cs.foldl (fun acc c => 10 * acc + (c.toNat - 48)) 0

/-- `pd.to_numeric(s, errors=coerce)` on one string cell, modelled on plain
decimal literals (optional sign, digits, optional fraction): unparseable
text coerces to `NaN` (`none`).  The value is built as a fraction
`mantissa / 10 ^ fractionDigits`. -/
def parseNum (s : String) : Option ℚ :=
  let core : List Char → Option (ℕ × ℕ) := fun cs =>
    let ip := cs.takeWhile (fun c => c.isDigit)
    let rest := cs.dropWhile (fun c => c.isDigit)
    match rest with
    | [] => if ip.isEmpty then none else some (digitsNat ip, 1)
    | '.' :: fp =>
        if fp.all (fun c => c.isDigit) && !(ip.isEmpty && fp.isEmpty) then
          some (digitsNat ip * 10 ^ fp.length + digitsNat fp, 10 ^ fp.length)
        else none
    | _ => none
  match s.toList with
  | '-' :: cs => (core cs).map (fun p => mkRat (-(p.1 : ℤ)) p.2)
  | '+' :: cs => (core cs).map (fun p => mkRat p.1 p.2)
  | cs => (core cs).map (fun p => mkRat p.1 p.2)

/-- `astype(str)` on a coerced (float64) cell, as used to build the predictor
dummy-column names: `NaN` prints as `nan`, an integral float as `n.0`, a
float with one decimal as `n.d` (the only shapes the clinical code columns
take; other denominators fall back to the raw rational printer). -/
def pyFloatStr : Option ℚ → String
  | none => "nan"
  | some q =>
      if q.den = 1 then toString q.num ++ ".0"
      else if q.den ∣ 10 then
        let m := q.num * ((10 / q.den : ℕ) : ℤ)
        (if q.num < 0 then "-" else "") ++ toString (m.natAbs / 10) ++ "." ++ toString (m.natAbs % 10)
      else toString q

/-- Steps 3a/3b of `preprocess_input`: build the one-row frame over
`ORIGINAL_INPUT_FEATURES` (absent keys become `NaN`) and run `pd.to_numeric`
over every column (the code coerces all non-`sex` columns, then `sex`). -/
def coercedRow (record : Record) : List (String × Option ℚ) :=
  ORIGINAL_INPUT_FEATURES.map (fun c => (c, (lookupRecord record c).bind parseNum))

/-- Step 3c of `preprocess_input`: the five categorical columns are cast to
strings and one-hot encoded with `drop_first=False`; on a single row each
contributes exactly one indicator column `name_value` holding `1`.
Non-encoded columns keep their order, dummies are appended after them. -/
def preprocessEncoded (record : Record) : List (String × Option ℚ) :=
  let coerced := coercedRow record
  coerced.filter (fun p => p.1 ∉ CATEGORICAL_COLS) ++
    (coerced.filter (fun p => p.1 ∈ CATEGORICAL_COLS)).map
      (fun p => (p.1 ++ "_" ++ pyFloatStr p.2, (some 1 : Option ℚ)))

/-- `final_input[col] = v`: assignment to a named column of the one-row
frame (all positions with that name are set). -/
def setCol (row : List (String × Option ℚ)) (c : String) (v : Option ℚ) :
    List (String × Option ℚ) :=
  row.map (fun p => if p.1 = c then (p.1, v) else p)

/-- One iteration of the step-3d loop: copy the encoded column into the
zero frame when its name is among the saved features, else skip it. -/
def alignStep (features : List String) (acc : List (String × Option ℚ))
    (p : String × Option ℚ) : List (String × Option ℚ) :=
  if p.1 ∈ features then setCol acc p.1 p.2 else acc

/-- Step 3d of `preprocess_input`: start from a frame of zeros over the
saved feature list, then copy over every encoded column present in that
list; encoded columns absent from it are skipped. -/
def alignRow (features : List String) (encoded : List (String × Option ℚ)) :
    List (String × Option ℚ) :=
  encoded.foldl (alignStep features)
    (features.map (fun c => (c, (some 0 : Option ℚ))))

/-- `preprocess_input` end to end: the single row `final_input.values`,
one entry per saved feature, `none` standing for `NaN`. -/
def preprocess_input (features : List String) (record : Record) : List (Option ℚ) :=
  (alignRow features (preprocessEncoded record)).map (fun p => p.2)

/-- Whether a list of float cells contains `NaN`; `some` gives the clean
vector `model.predict` accepts. -/
def seqOpt : List (Option ℚ) → Option (List ℚ)
  | [] => some []
  | none :: _ => none
  | some x :: rest => (seqOpt rest).map (fun l => x :: l)

/-- The loaded `model_metadata`: the saved feature list together with the
fitted classifier, abstracted to its `predict` / `predict_proba` behaviour
(`predict_proba[0][1]`, the probability of class 1). -/
structure Artifact where
  features : List String
  modelPredict : List ℚ → Bool
  modelProba : List ℚ → ℚ

/-- What the `/predict` route renders: a result page (label and displayed
probability) or the error page built in the `except` branch. -/
inductive Response where
  | result (positive : Bool) (probability : ℚ)
  | errorPage (msg : String)
deriving DecidableEq, Repr

/-- Whether a response is the error page. -/
def Response.isError : Response → Bool
  | .errorPage _ => true
  | .result _ _ => false

/-- The body of the `try` block of `predict`: preprocess, run the model,
and build the page.  `scikit-learn` tree models reject `NaN` input with a
`ValueError`, the sole exception a well-typed request can raise here; it is
modelled as the thrown message. -/
def predictBody (art : Artifact) (record : Record) : Except String Response :=
  match seqOpt (preprocess_input art.features record) with
  | none => .error "Input contains NaN"
  | some vec =>
      let prediction := art.modelPredict vec
      let probability := art.modelProba vec
      if prediction then .ok (.result true probability)
      else .ok (.result false (1 - probability))

/-- The `/predict` handler: the `try/except` wrapper that turns any thrown
error into the rendered error page. -/
def predictHandler (art : Artifact) (record : Record) : Response :=
  match predictBody art record with
  | .ok r => r
  | .error e =>
      .errorPage ("A critical error occurred during prediction: " ++ e ++ ". Please check inputs.")

/-- The process state of the Flask app relevant to requests: the artifact
loaded once at startup.  The handler reads it and writes nothing. -/
structure ServerState where
  artifact : Artifact

/-- Handling one request: produces a response and the (unchanged) state. -/
def serveStep (s : ServerState) (r : Record) : ServerState × Response :=
  (s, predictHandler s.artifact r)

/-- Handling a sequence of requests, threading the server state. -/
def serveAll (s : ServerState) : List Record → List Response
  | [] => []
  | r :: rs =>
      let step := serveStep s r
      step.2 :: serveAll step.1 rs

/-! ### Concrete fixtures (the spec's end-to-end example record) -/

/-- The spec's example training row as an all-numeric CSV (13 features and
the label, one data row). -/
def T63 : Table :=
  [("age", [.num 63]), ("sex", [.num 1]), ("cp", [.num 3]), ("trestbps", [.num 145]),
   ("chol", [.num 233]), ("fbs", [.num 1]), ("restecg", [.num 0]), ("thalach", [.num 150]),
   ("exang", [.num 0]), ("oldpeak", [.num (mkRat 23 10)]), ("slope", [.num 0]), ("ca", [.num 0]),
   ("thal", [.num 1]), ("target", [.num 1])]

/-- The same table with a string-typed `sex` column holding `Male`. -/
def TMale : Table :=
  [("age", [.num 63]), ("sex", [.str "Male"]), ("cp", [.num 3]), ("trestbps", [.num 145]),
   ("chol", [.num 233]), ("fbs", [.num 1]), ("restecg", [.num 0]), ("thalach", [.num 150]),
   ("exang", [.num 0]), ("oldpeak", [.num (mkRat 23 10)]), ("slope", [.num 0]), ("ca", [.num 0]),
   ("thal", [.num 1]), ("target", [.num 1])]

/-- The spec's example prediction request: the same 13 raw values as form
strings. -/
def R63 : Record :=
  [("age", "63"), ("sex", "1"), ("cp", "3"), ("trestbps", "145"), ("chol", "233"),
   ("fbs", "1"), ("restecg", "0"), ("thalach", "150"), ("exang", "0"),
   ("oldpeak", "2.3"), ("slope", "0"), ("ca", "0"), ("thal", "1")]

/-- An artifact whose feature list is the one `model.py` saves for an
all-numeric CSV; the model functions are irrelevant to the control flow
under study. -/
def A13 : Artifact :=
  ⟨EXPECTED_FEATURES, fun _ => true, fun _ => 1 / 2⟩

/-- A table holding only a header (empty columns) — column resolution reads
names only. -/
def colsOfNames (ns : List String) : Table := ns.map (fun n => (n, ([] : List Cell)))

/-- The float value of an `X` cell as the model consumed it (string cells —
which never reach `X` — have no float value). -/
def cellToOptQ : Cell → Option ℚ
  | .num q => some q
  | .str _ => none

/-- The training row of `T63` exactly as it sits in `X`. -/
def x63row : List Cell :=
  [.num 63, .num 1, .num 3, .num 145, .num 233, .num 1, .num 0, .num 150,
   .num 0, .num (mkRat 23 10), .num 0, .num 0, .num 1]

/-- The training artifact `model.py` builds from `T63`. -/
def resT63 : TrainResult := ⟨EXPECTED_FEATURES, [x63row]⟩

/-- The training row of `TMale` as it sits in `X` (12 columns, no `sex`). -/
def xMaleRow : List Cell :=
  [.num 63, .num 3, .num 145, .num 233, .num 1, .num 0, .num 150,
   .num 0, .num (mkRat 23 10), .num 0, .num 0, .num 1]

/-- The training artifact `model.py` builds from `TMale`. -/
def resMale : TrainResult := ⟨EXPECTED_FEATURES.filter (fun c => c ≠ "sex"), [xMaleRow]⟩

/-- The example request with the `cp` field omitted entirely. -/
def RnoCp : Record :=
  [("age", "63"), ("sex", "1"), ("trestbps", "145"), ("chol", "233"),
   ("fbs", "1"), ("restecg", "0"), ("thalach", "150"), ("exang", "0"),
   ("oldpeak", "2.3"), ("slope", "0"), ("ca", "0"), ("thal", "1")]

/-- The example request with the `age` field omitted entirely. -/
def RnoAge : Record :=
  [("sex", "1"), ("cp", "3"), ("trestbps", "145"), ("chol", "233"),
   ("fbs", "1"), ("restecg", "0"), ("thalach", "150"), ("exang", "0"),
   ("oldpeak", "2.3"), ("slope", "0"), ("ca", "0"), ("thal", "1")]

/-- A header missing both the label column and the `age` feature. -/
def Tc5 : Table := colsOfNames (EXPECTED_FEATURES.filter (fun c => c ≠ "age"))

/-- A header with the label present but the `age` and `thal` features
missing. -/
def Tmiss : Table :=
  colsOfNames ["target", "sex", "cp", "trestbps", "chol", "fbs", "restecg",
               "thalach", "exang", "oldpeak", "slope", "ca"]

/-- A header that uses the alias `thalch` for the `thalach` column and also
carries a stray column named `thalachh` (another registered `thalach`
alias); the cell values distinguish the two columns. -/
def TC7 : Table :=
  [("age", []), ("sex", []), ("cp", []), ("trestbps", []), ("chol", []),
   ("fbs", []), ("restecg", []), ("thalch", [.num 1]), ("exang", []),
   ("oldpeak", []), ("slope", []), ("ca", []), ("thal", []),
   ("thalachh", [.num 2]), ("target", [])]

section SanityChecks

example : reconcile (colsOfNames canonicalCols) =
    .ok (colsOfNames canonicalCols, EXPECTED_FEATURES) := by decide

example : reconcile (colsOfNames (EXPECTED_FEATURES ++ ["num"])) =
    .ok (colsOfNames (EXPECTED_FEATURES ++ ["target"]), EXPECTED_FEATURES) := by decide

example : reconcile (colsOfNames ["target", "sex"]) =
    .error (.missingFeatures (EXPECTED_FEATURES.filter (fun c => c ≠ "sex"))) := by
  decide

example : trainArtifact T63 =
    .ok ⟨EXPECTED_FEATURES,
         [[.num 63, .num 1, .num 3, .num 145, .num 233, .num 1, .num 0, .num 150,
           .num 0, .num (mkRat 23 10), .num 0, .num 0, .num 1]]⟩ := by decide

example : trainArtifact TMale =
    .ok ⟨EXPECTED_FEATURES.filter (fun c => c ≠ "sex"),
         [[.num 63, .num 3, .num 145, .num 233, .num 1, .num 0, .num 150,
           .num 0, .num (mkRat 23 10), .num 0, .num 0, .num 1]]⟩ := by decide

example : preprocess_input EXPECTED_FEATURES R63 =
    [some 63, some 1, some 0, some 145, some 233, some 1, some 0, some 150,
     some 0, some (mkRat 23 10), some 0, some 0, some 0] := by decide

example : (predictHandler A13 R63).isError = false := by decide

end SanityChecks

/-! ## Helper lemmas: feature-vector alignment -/

theorem anyCongr {α : Type} (l : List α) {p q : α → Bool}
    (h : ∀ a ∈ l, p a = q a) : l.any p = l.any q := by
  induction l with
  | nil => rfl
  | cons x xs ih =>
      simp only [List.any_cons, h x (by simp)]
      rw [ih fun a ha => h a (by simp [ha])]

theorem setCol_map_fst (row : List (String × Option ℚ)) (c : String) (v : Option ℚ) :
    (setCol row c v).map Prod.fst = row.map Prod.fst := by
  unfold setCol
  rw [List.map_map]
  apply List.map_congr_left
  intro p _
  by_cases hp : p.1 = c <;> simp [hp]

theorem alignFold_map_fst (features : List String) (e : List (String × Option ℚ)) :
    ∀ acc, ((e.foldl (alignStep features) acc).map Prod.fst) = acc.map Prod.fst := by
  induction e with
  | nil => intro acc; rfl
  | cons p ps ih =>
      intro acc
      rw [List.foldl_cons, ih]
      unfold alignStep
      by_cases hp : p.1 ∈ features <;> simp [hp, setCol_map_fst]

theorem alignRow_map_fst (features : List String) (e : List (String × Option ℚ)) :
    (alignRow features e).map Prod.fst = features := by
  unfold alignRow
  rw [alignFold_map_fst, List.map_map]
  have h : (Prod.fst ∘ fun c : String => (c, (some 0 : Option ℚ))) = id := rfl
  rw [h, List.map_id]

theorem alignFold_eq_find (features : List String) (e : List (String × Option ℚ)) :
    ∀ g : String → Option ℚ, (e.map Prod.fst).Nodup →
      e.foldl (alignStep features) (features.map (fun c => (c, g c))) =
        features.map (fun c =>
          (c, ((e.find? (fun p => p.1 = c)).map Prod.snd).getD (g c))) := by
  induction e with
  | nil => intro g _; simp
  | cons p ps ih =>
      intro g hnd
      rw [List.map_cons] at hnd
      have hp : p.1 ∉ ps.map Prod.fst := (List.nodup_cons.mp hnd).1
      have hndt : (ps.map Prod.fst).Nodup := (List.nodup_cons.mp hnd).2
      rw [List.foldl_cons]
      by_cases hmem : p.1 ∈ features
      · have hset : alignStep features (features.map (fun c => (c, g c))) p =
            features.map (fun c => (c, if c = p.1 then p.2 else g c)) := by
          unfold alignStep setCol
          rw [if_pos hmem, List.map_map]
          apply List.map_congr_left
          intro c _
          by_cases hc : c = p.1 <;> simp [hc]
        rw [hset, ih _ hndt]
        apply List.map_congr_left
        intro c _
        by_cases hc : c = p.1
        · have hfind : List.find? (fun q => q.1 = c) (p :: ps) = some p :=
            List.find?_cons_of_pos _ (by simp [hc])
          have hnone : ps.find? (fun q => q.1 = c) = none := by
            apply List.find?_eq_none.mpr
            intro q hq
            simp only [decide_eq_true_eq]
            intro hqc
            apply hp
            rw [hc] at hqc
            exact hqc ▸ List.mem_map_of_mem Prod.fst hq
          rw [hfind, hnone]
          simp only [Option.map_none', Option.map_some', Option.getD_none, Option.getD_some]
          rw [if_pos hc]
        · have hc' : ¬ p.1 = c := fun h => hc h.symm
          have hfind : List.find? (fun q => q.1 = c) (p :: ps) =
              List.find? (fun q => q.1 = c) ps :=
            List.find?_cons_of_neg _ (by simp [hc'])
          rw [hfind, if_neg hc]
      · have hskip : alignStep features (features.map (fun c => (c, g c))) p =
            features.map (fun c => (c, g c)) := by
          unfold alignStep
          rw [if_neg hmem]
        rw [hskip, ih g hndt]
        apply List.map_congr_left
        intro c hcf
        have hc : ¬ p.1 = c := fun h => hmem (h ▸ hcf)
        have hfind : List.find? (fun q => q.1 = c) (p :: ps) =
            List.find? (fun q => q.1 = c) ps :=
          List.find?_cons_of_neg _ (by simp [hc])
        rw [hfind]

theorem alignRow_eq_find (features : List String) (e : List (String × Option ℚ))
    (hnd : (e.map Prod.fst).Nodup) :
    alignRow features e =
      features.map (fun c =>
        (c, ((e.find? (fun p => p.1 = c)).map Prod.snd).getD (some 0))) := by
  unfold alignRow
  exact alignFold_eq_find features e (fun _ => some 0) hnd

theorem alignRow_discard (features : List String) (l1 l2 : List (String × Option ℚ))
    (c : String) (v : Option ℚ) (hc : c ∉ features) :
    alignRow features (l1 ++ (c, v) :: l2) = alignRow features (l1 ++ l2) := by
  unfold alignRow
  rw [List.foldl_append, List.foldl_append, List.foldl_cons]
  have hskip : ∀ acc, alignStep features acc (c, v) = acc := by
    intro acc
    unfold alignStep
    exact if_neg hc
  rw [hskip]

/-! ## Claim C2: feature-vector alignment -/

/-- C2: alignment in `preprocess_input` returns a row whose names and order
are exactly the saved feature list (third conjunct); when the encoded row
has no duplicate column names, each saved column takes the encoded value if
present and `0` otherwise (first conjunct); and an encoded column absent
from the saved list is discarded without affecting the output (second
conjunct). -/
theorem c2_alignment_matches_saved_features (features : List String) :
    (∀ encoded : List (String × Option ℚ), (encoded.map Prod.fst).Nodup →
        alignRow features encoded =
          features.map (fun c =>
            (c, ((encoded.find? (fun p => p.1 = c)).map Prod.snd).getD (some 0)))) ∧
    (∀ (l1 l2 : List (String × Option ℚ)) (c : String) (v : Option ℚ), c ∉ features →
        alignRow features (l1 ++ (c, v) :: l2) = alignRow features (l1 ++ l2)) ∧
    (∀ encoded, (alignRow features encoded).map Prod.fst = features) :=
  ⟨fun e h => alignRow_eq_find features e h,
   fun l1 l2 c v hc => alignRow_discard features l1 l2 c v hc,
   fun e => alignRow_map_fst features e⟩

theorem c2_alignment_matches_saved_features_witness :
    (([("age", (some 5 : Option ℚ)), ("cp_3.0", some 1)]).map Prod.fst).Nodup ∧
    alignRow EXPECTED_FEATURES [("age", some 5), ("cp_3.0", some 1)] =
      EXPECTED_FEATURES.map (fun c =>
        (c, (([(("age" : String), (some 5 : Option ℚ)), ("cp_3.0", some 1)].find?
          (fun p => p.1 = c)).map Prod.snd).getD (some 0))) :=
  ⟨by decide, (c2_alignment_matches_saved_features EXPECTED_FEATURES).1 _ (by decide)⟩

/-! ## Claim C8: output shape and unknown keys -/

/-- C8: for every request record, `preprocess_input` returns one row with
exactly one entry per saved feature, and its output depends only on the 13
canonical keys — two records agreeing on those keys (in particular, one
with extra unknown keys) produce identical outputs. -/
theorem c8_preprocess_shape_and_unknown_keys (features : List String) (record : Record) :
    (preprocess_input features record).length = features.length ∧
    ∀ record' : Record,
      (∀ c ∈ ORIGINAL_INPUT_FEATURES, lookupRecord record c = lookupRecord record' c) →
      preprocess_input features record = preprocess_input features record' := by
  constructor
  · have h := congrArg List.length (alignRow_map_fst features (preprocessEncoded record))
    simp only [List.length_map] at h
    simpa [preprocess_input, List.length_map] using h
  · intro record' hagree
    have hco : coercedRow record = coercedRow record' := by
      unfold coercedRow
      apply List.map_congr_left
      intro c hc
      rw [hagree c hc]
    unfold preprocess_input preprocessEncoded
    rw [hco]

theorem c8_preprocess_shape_and_unknown_keys_witness :
    (∀ c ∈ ORIGINAL_INPUT_FEATURES,
        lookupRecord (("extra", "9") :: R63) c = lookupRecord R63 c) ∧
    preprocess_input EXPECTED_FEATURES (("extra", "9") :: R63) =
      preprocess_input EXPECTED_FEATURES R63 :=
  ⟨by decide,
   (c8_preprocess_shape_and_unknown_keys EXPECTED_FEATURES (("extra", "9") :: R63)).2
     R63 (by decide)⟩

/-! ## Claim C6: the request boundary -/

/-- C6: every exception thrown inside the request pipeline is converted into
the rendered error page (first conjunct); handling a sequence of requests
yields, for each request, exactly the response the handler gives on the
startup artifact — a failing request cannot change any later response
(second conjunct) — because the handler leaves the server state untouched
(third conjunct). -/
theorem c6_request_boundary (s : ServerState) (reqs : List Record) (r : Record) (e : String) :
    (predictBody s.artifact r = .error e →
      predictHandler s.artifact r =
        .errorPage ("A critical error occurred during prediction: " ++ e ++
          ". Please check inputs.")) ∧
    serveAll s reqs = reqs.map (predictHandler s.artifact) ∧
    (serveStep s r).1 = s := by
  refine ⟨?_, ?_, rfl⟩
  · intro h
    unfold predictHandler
    rw [h]
  · induction reqs with
    | nil => rfl
    | cons x xs ih => simp [serveAll, serveStep, ih]

theorem c6_request_boundary_witness :
    predictBody A13 [] = .error "Input contains NaN" ∧
    predictHandler A13 [] =
      .errorPage ("A critical error occurred during prediction: " ++ "Input contains NaN" ++
        ". Please check inputs.") :=
  ⟨by decide, (c6_request_boundary ⟨A13⟩ [] [] "Input contains NaN").1 (by decide)⟩

/-! ## Claim C4: missing required fields -/

theorem seqOpt_eq_none {l : List (Option ℚ)} (h : none ∈ l) : seqOpt l = none := by
  induction l with
  | nil => cases h
  | cons x xs ih =>
      cases x with
      | none => rfl
      | some v =>
          have hx : none ∈ xs := by
            cases List.mem_cons.mp h with
            | inl h1 => exact absurd h1 (by simp)
            | inr h1 => exact h1
          show (seqOpt xs).map _ = none
          rw [ih hx]
          rfl

theorem mem_setCol_none (acc : List (String × Option ℚ)) (f : String)
    (hx : ∃ p ∈ acc, p.1 = f) : (f, (none : Option ℚ)) ∈ setCol acc f none := by
  obtain ⟨p, hp, hpf⟩ := hx
  unfold setCol
  exact List.mem_map.mpr ⟨p, hp, by simp [hpf]⟩

theorem alignFold_mem_none (features : List String) (f : String) :
    ∀ (l : List (String × Option ℚ)) (acc : List (String × Option ℚ)),
      (f, (none : Option ℚ)) ∈ acc → (∀ p ∈ l, p.1 ≠ f) →
      (f, (none : Option ℚ)) ∈ l.foldl (alignStep features) acc := by
  intro l
  induction l with
  | nil => intro acc hacc _; exact hacc
  | cons p ps ih =>
      intro acc hacc hnames
      rw [List.foldl_cons]
      apply ih
      · unfold alignStep
        by_cases hmem : p.1 ∈ features
        · rw [if_pos hmem]
          unfold setCol
          have hne : ¬ (f = p.1) := fun h => (hnames p (by simp)) h.symm
          exact List.mem_map.mpr ⟨(f, none), hacc, by simp [hne]⟩
        · rw [if_neg hmem]
          exact hacc
      · intro q hq
        exact hnames q (by simp [hq])

theorem origNodupFact : ORIGINAL_INPUT_FEATURES.Nodup := by decide

theorem origNoUnderscoreFact : ∀ x ∈ ORIGINAL_INPUT_FEATURES, ('_' : Char) ∉ x.data := by
  decide

/-- C4 (amended): a request that omits one of the eight numeric raw fields
(one not in `CATEGORICAL_COLS`) that appears in the saved feature list is
answered with the error page: the missing value survives coercion and
alignment as `NaN`, and the model invocation throws, which the boundary
renders as an error.  (Omitting one of the five categorical fields instead
produces an unknown-code indicator that alignment discards, so the handler
can answer with a normal prediction — see the counterexample.) -/
theorem c4_missing_numeric_field_is_error (art : Artifact) (record : Record) (f : String)
    (hf : f ∈ ORIGINAL_INPUT_FEATURES) (hcat : f ∉ CATEGORICAL_COLS)
    (hfeat : f ∈ art.features) (hmiss : lookupRecord record f = none) :
    (predictHandler art record).isError = true := by
  obtain ⟨o1, o2, heq⟩ := List.append_of_mem hf
  have hnd : ORIGINAL_INPUT_FEATURES.Nodup := origNodupFact
  rw [heq] at hnd
  have hnd' := List.nodup_append.mp hnd
  have hf2 : f ∉ o2 := (List.nodup_cons.mp hnd'.2.1).1
  -- the coerced row splits around the missing field, whose cell is NaN
  have hsplit : coercedRow record =
      o1.map (fun c => (c, (lookupRecord record c).bind parseNum)) ++
        (f, (none : Option ℚ)) ::
          o2.map (fun c => (c, (lookupRecord record c).bind parseNum)) := by
    unfold coercedRow
    rw [heq, List.map_append, List.map_cons, hmiss]
    rfl
  -- every dummy column name carries an underscore, so never equals `f`
  have hdummy_ne : ∀ p ∈ (coercedRow record).filter (fun p => p.1 ∈ CATEGORICAL_COLS),
      (p.1 ++ "_" ++ pyFloatStr p.2) ≠ f := by
    intro p _ hcontra
    have hu : ('_' : Char) ∈ (p.1 ++ "_" ++ pyFloatStr p.2).data := by
      rw [String.data_append, String.data_append]
      exact List.mem_append_left _ (List.mem_append_right _ (by simp [String.data]))
    rw [hcontra] at hu
    exact origNoUnderscoreFact f hf hu
  -- the encoded row splits as l1 ++ (f, NaN) :: l2 with no f-named entry in l2
  have hnum : (coercedRow record).filter (fun p => p.1 ∉ CATEGORICAL_COLS) =
      (o1.map (fun c => (c, (lookupRecord record c).bind parseNum))).filter
          (fun p => p.1 ∉ CATEGORICAL_COLS) ++
        (f, (none : Option ℚ)) ::
          (o2.map (fun c => (c, (lookupRecord record c).bind parseNum))).filter
            (fun p => p.1 ∉ CATEGORICAL_COLS) := by
    rw [hsplit, List.filter_append, List.filter_cons]
    rw [if_pos (by simp [hcat])]
  have hencEq : preprocessEncoded record =
      (coercedRow record).filter (fun p => p.1 ∉ CATEGORICAL_COLS) ++
        ((coercedRow record).filter (fun p => p.1 ∈ CATEGORICAL_COLS)).map
          (fun p => (p.1 ++ "_" ++ pyFloatStr p.2, (some 1 : Option ℚ))) := rfl
  have henc : preprocessEncoded record =
      (o1.map (fun c => (c, (lookupRecord record c).bind parseNum))).filter
          (fun p => p.1 ∉ CATEGORICAL_COLS) ++
        (f, (none : Option ℚ)) ::
          ((o2.map (fun c => (c, (lookupRecord record c).bind parseNum))).filter
              (fun p => p.1 ∉ CATEGORICAL_COLS) ++
            ((coercedRow record).filter (fun p => p.1 ∈ CATEGORICAL_COLS)).map
              (fun p => (p.1 ++ "_" ++ pyFloatStr p.2, (some 1 : Option ℚ)))) := by
    rw [hencEq, hnum, List.append_assoc]
    rfl
  -- NaN reaches the aligned vector
  have hmemnone : (f, (none : Option ℚ)) ∈
      alignRow art.features (preprocessEncoded record) := by
    unfold alignRow
    rw [henc, List.foldl_append, List.foldl_cons]
    apply alignFold_mem_none
    · have hstep : ∀ acc, alignStep art.features acc (f, (none : Option ℚ)) =
          setCol acc f none := by
        intro acc
        unfold alignStep
        rw [if_pos hfeat]
      rw [hstep]
      apply mem_setCol_none
      have hfst := alignFold_map_fst art.features
        ((o1.map (fun c => (c, (lookupRecord record c).bind parseNum))).filter
          (fun p => p.1 ∉ CATEGORICAL_COLS))
        (art.features.map (fun c => (c, (some 0 : Option ℚ))))
      have hin : f ∈ (List.foldl (alignStep art.features)
          (art.features.map (fun c => (c, (some 0 : Option ℚ))))
          ((o1.map (fun c => (c, (lookupRecord record c).bind parseNum))).filter
            (fun p => p.1 ∉ CATEGORICAL_COLS))).map Prod.fst := by
        rw [hfst, List.map_map]
        have hid : (Prod.fst ∘ fun c : String => (c, (some 0 : Option ℚ))) = id := rfl
        rw [hid, List.map_id]
        exact hfeat
      obtain ⟨p, hp, hpf⟩ := List.mem_map.mp hin
      exact ⟨p, hp, hpf⟩
    · intro p hp
      rcases List.mem_append.mp hp with h1 | h2
      · have hfil := (List.mem_filter.mp h1).1
        obtain ⟨c, hc, hcp⟩ := List.mem_map.mp hfil
        intro hpf
        apply hf2
        have hcf : c = f := by
          rw [← hcp] at hpf
          exact hpf
        exact hcf ▸ hc
      · obtain ⟨p', hp', hpe⟩ := List.mem_map.mp h2
        rw [← hpe]
        exact hdummy_ne p' hp'
  -- the handler renders the error page
  have hnone : (none : Option ℚ) ∈ preprocess_input art.features record := by
    unfold preprocess_input
    exact List.mem_map_of_mem Prod.snd hmemnone
  unfold predictHandler predictBody
  rw [seqOpt_eq_none hnone]
  rfl

theorem c4_missing_numeric_field_is_error_witness :
    ("age" ∈ ORIGINAL_INPUT_FEATURES ∧ "age" ∉ CATEGORICAL_COLS ∧
      "age" ∈ A13.features ∧ lookupRecord RnoAge "age" = none) ∧
    (predictHandler A13 RnoAge).isError = true :=
  ⟨⟨by decide, by decide, by decide, by decide⟩,
   c4_missing_numeric_field_is_error A13 RnoAge "age"
     (by decide) (by decide) (by decide) (by decide)⟩

/-- C4 (counterexample to the claim as stated): the request `RnoCp` omits
the required field `cp` entirely, yet the handler returns a normal
prediction page, not an error — the missing categorical value only produces
a `cp_nan` indicator that alignment silently discards. -/
theorem c4_counterexample_missing_categorical_field :
    lookupRecord RnoCp "cp" = none ∧ "cp" ∈ ORIGINAL_INPUT_FEATURES ∧
    (predictHandler A13 RnoCp).isError = false := by
  refine ⟨by decide, by decide, by decide⟩

/-! ## Reconciliation: global schema facts -/

theorem factA : ∀ c ∈ canonicalCols, ∀ a ∈ COL_MAPPING c, a ∉ canonicalCols := by decide

theorem factB : ∀ c ∈ canonicalCols, ∀ c' ∈ canonicalCols, c ≠ c' →
    ∀ a ∈ COL_MAPPING c, a ∉ COL_MAPPING c' := by decide

theorem expectedSubCanonical : ∀ c ∈ EXPECTED_FEATURES, c ∈ canonicalCols := by decide

theorem expectedNodup : EXPECTED_FEATURES.Nodup := by decide

theorem targetNotExpected : TARGET_FEATURE ∉ EXPECTED_FEATURES := by decide

/-! ## Reconciliation: rename lemmas -/

theorem hasCol_renameCol_ne (old new x : String) (h1 : x ≠ old) (h2 : x ≠ new) :
    ∀ t : Table, hasCol (renameCol old new t) x = hasCol t x := by
  intro t
  induction t with
  | nil => rfl
  | cons p ps ih =>
      unfold renameCol at ih ⊢
      unfold hasCol at ih ⊢
      rw [List.map_cons, List.any_cons, List.any_cons, ih]
      congr 1
      by_cases hp : p.1 = old
      · rw [if_pos hp]
        simp [hp, Ne.symm h2, Ne.symm h1]
      · rw [if_neg hp]

theorem renameCol_id (old new : String) (t : Table) (h : hasCol t old = false) :
    renameCol old new t = t := by
  induction t with
  | nil => rfl
  | cons p ps ih =>
      unfold hasCol at h
      rw [List.any_cons, Bool.or_eq_false_iff] at h
      unfold renameCol at ih ⊢
      rw [List.map_cons, if_neg (by simpa using h.1)]
      rw [ih (by unfold hasCol; exact h.2)]

theorem hasCol_renameCol_new (old new : String) (t : Table) (h : hasCol t old = true) :
    hasCol (renameCol old new t) new = true := by
  induction t with
  | nil => exact absurd h (by simp [hasCol])
  | cons p ps ih =>
      unfold hasCol at h ih ⊢
      rw [List.any_cons, Bool.or_eq_true] at h
      unfold renameCol at ih ⊢
      rw [List.map_cons, List.any_cons]
      cases h with
      | inl h1 =>
          rw [if_pos (by simpa using h1)]
          simp
      | inr h2 =>
          rw [ih h2]
          simp

theorem renameCol_comm (a c a' c' : String) (h1 : a ≠ a') (h2 : a ≠ c') (h3 : c ≠ a')
    (t : Table) :
    renameCol a' c' (renameCol a c t) = renameCol a c (renameCol a' c' t) := by
  unfold renameCol
  rw [List.map_map, List.map_map]
  apply List.map_congr_left
  intro p _
  simp only [Function.comp]
  by_cases hp : p.1 = a
  · simp [hp, h1, h3]
  · by_cases hp' : p.1 = a'
    · simp [hp, hp', Ne.symm h2, Ne.symm h1]
    · simp [hp, hp']

theorem resolvable_renameCol (t : Table) (old new c : String)
    (hold : old ≠ c) (hold2 : old ∉ COL_MAPPING c)
    (hnew : new ≠ c) (hnew2 : new ∉ COL_MAPPING c) :
    resolvable (renameCol old new t) c = resolvable t c := by
  unfold resolvable
  rw [hasCol_renameCol_ne old new c (Ne.symm hold) (Ne.symm hnew) t]
  congr 1
  apply anyCongr
  intro a ha
  exact hasCol_renameCol_ne old new a (fun h => hold2 (h ▸ ha)) (fun h => hnew2 (h ▸ ha)) t

/-! ## Reconciliation: the feature loop -/

theorem featStep_tbl_cases (s : FeatState) (c : String) :
    (featStep s c).tbl = s.tbl ∨
      ∃ a ∈ COL_MAPPING c, hasCol s.tbl c = false ∧ hasCol s.tbl a = true ∧
        (featStep s c).tbl = renameCol a c s.tbl := by
  unfold featStep
  cases hb : hasCol s.tbl c with
  | true => left; simp [hb]
  | false =>
      cases hfind : (COL_MAPPING c).find? (fun a => hasCol s.tbl a) with
      | none => left; simp [hb, hfind]
      | some a =>
          right
          exact ⟨a, List.mem_of_find?_eq_some hfind, rfl,
            by simpa using List.find?_some hfind, by simp [hb, hfind]⟩

theorem alias_not_relevant {c c' a : String} (hc : c ∈ canonicalCols)
    (hc' : c' ∈ canonicalCols) (hne : c ≠ c') (ha : a ∈ COL_MAPPING c') :
    a ≠ c ∧ a ∉ COL_MAPPING c := by
  constructor
  · intro h
    exact factA c' hc' a ha (h ▸ hc)
  · exact factB c' hc' c hc (fun h => hne h.symm) a ha

theorem canonical_not_relevant {c c' : String} (hc : c ∈ canonicalCols)
    (hc' : c' ∈ canonicalCols) (hne : c ≠ c') :
    c' ≠ c ∧ c' ∉ COL_MAPPING c := by
  constructor
  · exact fun h => hne h.symm
  · intro h
    exact factA c hc c' h hc'

theorem resolvable_featStep (s : FeatState) (c c' : String) (hc : c ∈ canonicalCols)
    (hc' : c' ∈ canonicalCols) (hne : c ≠ c') :
    resolvable (featStep s c').tbl c = resolvable s.tbl c := by
  rcases featStep_tbl_cases s c' with h | ⟨a, ha, _, _, h⟩
  · rw [h]
  · rw [h]
    obtain ⟨ha1, ha2⟩ := alias_not_relevant hc hc' hne ha
    obtain ⟨hb1, hb2⟩ := canonical_not_relevant hc hc' hne
    exact resolvable_renameCol s.tbl a c' c ha1 ha2 hb1 hb2

theorem featFold_spec : ∀ (cs : List String), cs.Nodup → (∀ x ∈ cs, x ∈ canonicalCols) →
    ∀ (t : Table) (ff m : List String),
      (cs.foldl featStep ⟨t, ff, m⟩).missing =
          m ++ cs.filter (fun c => !(resolvable t c)) ∧
      (cs.foldl featStep ⟨t, ff, m⟩).finalFeats =
          ff ++ cs.filter (fun c => resolvable t c) := by
  intro cs
  induction cs with
  | nil => intro _ _ t ff m; constructor <;> simp
  | cons c0 rest ih =>
      intro hnd hsub t ff m
      have hnd' := List.nodup_cons.mp hnd
      have hsub' : ∀ x ∈ rest, x ∈ canonicalCols := fun x hx => hsub x (by simp [hx])
      have hc0 : c0 ∈ canonicalCols := hsub c0 (by simp)
      rw [List.foldl_cons]
      -- the step either resolves c0 (exactly when `resolvable`) or records it missing,
      -- and never changes the resolvability of the remaining columns
      have hstepres : ∀ c ∈ rest, resolvable (featStep ⟨t, ff, m⟩ c0).tbl c = resolvable t c := by
        intro c hcr
        exact resolvable_featStep ⟨t, ff, m⟩ c c0 (hsub' c hcr) hc0
          (fun h => hnd'.1 (h ▸ hcr))
      cases hb : hasCol t c0 with
      | true =>
          have hres : resolvable t c0 = true := by
            unfold resolvable
            rw [hb]
            rfl
          have hstep : featStep ⟨t, ff, m⟩ c0 = ⟨t, ff ++ [c0], m⟩ := by
            unfold featStep
            simp [hb]
          rw [hstep]
          obtain ⟨h1, h2⟩ := ih hnd'.2 hsub' t (ff ++ [c0]) m
          rw [h1, h2]
          constructor
          · rw [List.filter_cons, hres]
            simp
          · rw [List.filter_cons, hres]
            simp [List.append_assoc]
      | false =>
          cases hfind : (COL_MAPPING c0).find? (fun a => hasCol t a) with
          | none =>
              have hres : resolvable t c0 = false := by
                unfold resolvable
                rw [hb]
                simp only [Bool.false_or, List.any_eq_false]
                intro a ha
                simpa using List.find?_eq_none.mp hfind a ha
              have hstep : featStep ⟨t, ff, m⟩ c0 = ⟨t, ff, m ++ [c0]⟩ := by
                unfold featStep
                simp [hb, hfind]
              rw [hstep]
              obtain ⟨h1, h2⟩ := ih hnd'.2 hsub' t ff (m ++ [c0])
              rw [h1, h2]
              constructor
              · rw [List.filter_cons, hres]
                simp [List.append_assoc]
              · rw [List.filter_cons, hres]
                simp
          | some a =>
              have hcol : hasCol t a = true := by simpa using List.find?_some hfind
              have hres : resolvable t c0 = true := by
                unfold resolvable
                rw [hb]
                simp only [Bool.false_or, List.any_eq_true]
                exact ⟨a, List.mem_of_find?_eq_some hfind, hcol⟩
              have hstep : featStep ⟨t, ff, m⟩ c0 = ⟨renameCol a c0 t, ff ++ [c0], m⟩ := by
                unfold featStep
                simp [hb, hfind]
              have hstepres' : ∀ c ∈ rest,
                  resolvable (renameCol a c0 t) c = resolvable t c := by
                intro c hcr
                have := hstepres c hcr
                rw [hstep] at this
                exact this
              rw [hstep]
              obtain ⟨h1, h2⟩ := ih hnd'.2 hsub' (renameCol a c0 t) (ff ++ [c0]) m
              rw [h1, h2]
              rw [List.filter_congr (fun c hcr => by rw [hstepres' c hcr] :
                    ∀ c ∈ rest, (!(resolvable (renameCol a c0 t) c)) = !(resolvable t c)),
                  List.filter_congr (fun c hcr => hstepres' c hcr :
                    ∀ c ∈ rest, resolvable (renameCol a c0 t) c = resolvable t c)]
              constructor
              · rw [List.filter_cons, hres]
                simp
              · rw [List.filter_cons, hres]
                simp [List.append_assoc]

/-! ## Reconciliation: target resolution -/

theorem resolveTarget_eq_none_iff (t : Table) :
    resolveTarget t = none ↔ resolvable t TARGET_FEATURE = false := by
  unfold resolveTarget resolvable
  cases hb : hasCol t TARGET_FEATURE with
  | true => simp [hb]
  | false =>
      cases hfind : (COL_MAPPING TARGET_FEATURE).find? (fun a => hasCol t a) with
      | none =>
          simp only [hb, Bool.false_eq_true, if_false, hfind, Bool.false_or]
          constructor
          · intro _
            simp only [List.any_eq_false]
            intro a ha
            simpa using List.find?_eq_none.mp hfind a ha
          · intro _
            trivial
      | some a =>
          have hcol : hasCol t a = true := by simpa using List.find?_some hfind
          simp only [hb, Bool.false_eq_true, if_false, hfind, Bool.false_or]
          constructor
          · intro h
            cases h
          · intro h
            simp only [List.any_eq_false] at h
            exact absurd hcol (by simpa using h a (List.mem_of_find?_eq_some hfind))

theorem resolveTarget_some_resolvable (t t1 : Table) (h : resolveTarget t = some t1) :
    ∀ c ∈ EXPECTED_FEATURES, resolvable t1 c = resolvable t c := by
  intro c hc
  unfold resolveTarget at h
  cases hb : hasCol t TARGET_FEATURE with
  | true =>
      rw [hb] at h
      simp at h
      rw [← h]
  | false =>
      rw [hb] at h
      cases hfind : (COL_MAPPING TARGET_FEATURE).find? (fun a => hasCol t a) with
      | none => simp [hfind] at h
      | some a =>
          simp [hfind] at h
          rw [← h]
          have hcCan : c ∈ canonicalCols := expectedSubCanonical c hc
          have htCan : TARGET_FEATURE ∈ canonicalCols := by
            unfold canonicalCols
            simp
          have hne : c ≠ TARGET_FEATURE := fun hh => targetNotExpected (hh ▸ hc)
          obtain ⟨ha1, ha2⟩ := alias_not_relevant hcCan htCan hne
            (List.mem_of_find?_eq_some hfind)
          obtain ⟨hb1, hb2⟩ := canonical_not_relevant hcCan htCan hne
          exact resolvable_renameCol t a TARGET_FEATURE c ha1 ha2 hb1 hb2

/-! ## Claims C5, C9, C10 -/

theorem reconcile_error_of_no_target (t : Table)
    (h : resolvable t TARGET_FEATURE = false) : reconcile t = .error .missingTarget := by
  unfold reconcile
  rw [(resolveTarget_eq_none_iff t).mpr h]

/-- C5 (amended): resolution is exact-name-first then first-matching-alias
(by construction of `featStep`/`resolveTarget`); when the label column is
unresolvable the trainer fails fast naming only the label, and otherwise,
when any feature columns are unresolvable, it fails fast before any fitting
naming exactly the unresolved feature columns, in schema order.  (The claim
as stated — naming every unresolved canonical column — fails when the label
and a feature are both unresolvable: see the counterexample.) -/
theorem c5_fail_fast_naming (t : Table) :
    (resolvable t TARGET_FEATURE = false → trainArtifact t = .error .missingTarget) ∧
    (resolvable t TARGET_FEATURE = true →
      EXPECTED_FEATURES.filter (fun c => !(resolvable t c)) ≠ [] →
      trainArtifact t = .error (.missingFeatures
        (EXPECTED_FEATURES.filter (fun c => !(resolvable t c))))) := by
  constructor
  · intro h
    unfold trainArtifact
    rw [reconcile_error_of_no_target t h]
  · intro hres hne
    cases h0 : resolveTarget t with
    | none =>
        exact absurd ((resolveTarget_eq_none_iff t).mp h0) (by simp [hres])
    | some t1 =>
        have hmiss : (EXPECTED_FEATURES.foldl featStep ⟨t1, [], []⟩).missing =
            EXPECTED_FEATURES.filter (fun c => !(resolvable t c)) := by
          obtain ⟨h1, _⟩ := featFold_spec EXPECTED_FEATURES expectedNodup
            expectedSubCanonical t1 [] []
          rw [h1, List.nil_append]
          apply List.filter_congr
          intro c hc
          rw [resolveTarget_some_resolvable t t1 h0 c hc]
        have hrec : reconcile t = .error (.missingFeatures
            (EXPECTED_FEATURES.filter (fun c => !(resolvable t c)))) := by
          unfold reconcile
          rw [h0]
          simp only [hmiss]
          rw [if_neg (by simpa [List.isEmpty_iff] using hne)]
        unfold trainArtifact
        rw [hrec]

/-- C5 (counterexample to the claim as stated): on a table missing both the
label and the `age` feature, the trainer exits naming only `target`, even
though `age` is also an unresolved canonical column. -/
theorem c5_counterexample_target_shadows_features :
    reconcile Tc5 = .error .missingTarget ∧
    resolvable Tc5 "age" = false ∧
    "age" ∉ namedBy .missingTarget := by
  refine ⟨by decide, by decide, by decide⟩

theorem reconcile_some_eq (t t1 : Table) (h0 : resolveTarget t = some t1) :
    reconcile t =
      (if (EXPECTED_FEATURES.foldl featStep ⟨t1, [], []⟩).missing.isEmpty
       then .ok ((EXPECTED_FEATURES.foldl featStep ⟨t1, [], []⟩).tbl,
                 (EXPECTED_FEATURES.foldl featStep ⟨t1, [], []⟩).finalFeats)
       else .error (.missingFeatures
         (EXPECTED_FEATURES.foldl featStep ⟨t1, [], []⟩).missing)) := by
  unfold reconcile
  rw [h0]

theorem reconcile_ok_finalFeats (t tbl : Table) (ff : List String)
    (h : reconcile t = .ok (tbl, ff)) : ff = EXPECTED_FEATURES := by
  cases h0 : resolveTarget t with
  | none =>
      unfold reconcile at h
      rw [h0] at h
      cases h
  | some t1 =>
      rw [reconcile_some_eq t t1 h0] at h
      obtain ⟨h1, h2⟩ := featFold_spec EXPECTED_FEATURES expectedNodup
        expectedSubCanonical t1 [] []
      generalize hS : EXPECTED_FEATURES.foldl featStep (⟨t1, [], []⟩ : FeatState) = S at h h1 h2
      by_cases hempty : S.missing.isEmpty
      · rw [if_pos hempty] at h
        have hpair : (S.tbl, S.finalFeats) = (tbl, ff) := Except.ok.inj h
        have hffeq : ff = S.finalFeats :=
          (congrArg Prod.snd hpair).symm
        have hmissnil : S.missing = [] := by
          simpa [List.isEmpty_iff] using hempty
        rw [h1, List.nil_append] at hmissnil
        have hall : ∀ c ∈ EXPECTED_FEATURES, resolvable t1 c = true := by
          intro c hc
          have hnc := List.filter_eq_nil_iff.mp hmissnil c hc
          simpa using hnc
        rw [hffeq, h2, List.nil_append]
        exact List.filter_eq_self.mpr hall
      · rw [if_neg hempty] at h
        cases h

theorem c5_fail_fast_naming_witness :
    (resolvable Tmiss TARGET_FEATURE = true ∧
      EXPECTED_FEATURES.filter (fun c => !(resolvable Tmiss c)) ≠ []) ∧
    trainArtifact Tmiss = .error (.missingFeatures ["age", "thal"]) :=
  ⟨⟨by decide, by decide⟩,
   ((c5_fail_fast_naming Tmiss).2 (by decide) (by decide)).trans (by decide)⟩

theorem trainArtifact_ok_features (t : Table) (art : TrainResult)
    (h : trainArtifact t = .ok art) :
    ∃ tbl, reconcile t = .ok (tbl, EXPECTED_FEATURES) ∧
      art.features = (selectFinalFeatures (encodeTable tbl) EXPECTED_FEATURES).filter
        (fun c => c ≠ TARGET_FEATURE) := by
  unfold trainArtifact at h
  cases hrec : reconcile t with
  | error e => rw [hrec] at h; cases h
  | ok pr =>
      obtain ⟨tbl, ff⟩ := pr
      have hff : ff = EXPECTED_FEATURES := reconcile_ok_finalFeats t tbl ff hrec
      subst hff
      rw [hrec] at h
      refine ⟨tbl, rfl, ?_⟩
      have hres := (Except.ok.inj h).symm
      rw [hres]

/-- C9: the trainer's post-encoding selection keeps exactly the post-encoding
columns that are canonical feature names or start with `thal_` or `cp_`
(minus the label); indicator columns generated from any other source column
(`sex_1`, `restecg_...`, `slope_...`, `ca_...`) satisfy none of the
disjuncts and are excluded from the saved feature list. -/
theorem c9_feature_selection (t : Table) (art : TrainResult)
    (h : trainArtifact t = .ok art) :
    ∃ tbl, reconcile t = .ok (tbl, EXPECTED_FEATURES) ∧
      ∀ c, c ∈ art.features ↔
        (c ∈ (encodeTable tbl).map Prod.fst ∧
          (c ∈ EXPECTED_FEATURES ∨ strStartsWith c "thal_" = true ∨
            strStartsWith c "cp_" = true) ∧
          c ≠ TARGET_FEATURE) := by
  obtain ⟨tbl, hrec, hfeat⟩ := trainArtifact_ok_features t art h
  refine ⟨tbl, hrec, ?_⟩
  intro c
  rw [hfeat]
  unfold selectFinalFeatures
  constructor
  · intro hc
    have h1 := List.mem_filter.mp hc
    have h2 := List.mem_filter.mp h1.1
    refine ⟨h2.1, ?_, by simpa using h1.2⟩
    simpa [Bool.or_eq_true, decide_eq_true_eq, or_assoc] using h2.2
  · intro hc
    obtain ⟨hmem, hdis, hne⟩ := hc
    apply List.mem_filter.mpr
    refine ⟨List.mem_filter.mpr ⟨hmem, ?_⟩, by simpa using hne⟩
    simpa [Bool.or_eq_true, decide_eq_true_eq, or_assoc] using hdis

theorem c9_feature_selection_witness :
    trainArtifact T63 = .ok resT63 ∧
    (∃ tbl, reconcile T63 = .ok (tbl, EXPECTED_FEATURES) ∧
      ∀ c, c ∈ resT63.features ↔
        (c ∈ (encodeTable tbl).map Prod.fst ∧
          (c ∈ EXPECTED_FEATURES ∨ strStartsWith c "thal_" = true ∨
            strStartsWith c "cp_" = true) ∧
          c ≠ TARGET_FEATURE)) :=
  ⟨by decide, c9_feature_selection T63 resT63 (by decide)⟩

/-- C10: the saved artifact's column list never contains the label: every
successful training run filters `target` out of the persisted `X` columns. -/
theorem c10_target_not_in_saved_features (t : Table) (art : TrainResult)
    (h : trainArtifact t = .ok art) : TARGET_FEATURE ∉ art.features := by
  obtain ⟨tbl, _, hfeat⟩ := trainArtifact_ok_features t art h
  rw [hfeat]
  intro hmem
  have hcontra := (List.mem_filter.mp hmem).2
  simp at hcontra

theorem c10_target_not_in_saved_features_witness :
    trainArtifact T63 = .ok resT63 ∧ TARGET_FEATURE ∉ resT63.features :=
  ⟨by decide, c10_target_not_in_saved_features T63 resT63 (by decide)⟩

/-! ## Claim C7: alias invariance of reconciliation -/

theorem findCongr {l : List String} {p q : String → Bool}
    (h : ∀ x ∈ l, p x = q x) : l.find? p = l.find? q := by
  induction l with
  | nil => rfl
  | cons x xs ih =>
      have hx := h x (by simp)
      by_cases hpx : p x = true
      · rw [List.find?_cons_of_pos _ hpx, List.find?_cons_of_pos _ (hx ▸ hpx)]
      · have hqx : ¬ q x = true := by rw [← hx]; exact hpx
        rw [List.find?_cons_of_neg _ hpx, List.find?_cons_of_neg _ hqx]
        exact ih (fun y hy => h y (by simp [hy]))

theorem findUnique {l : List String} {p : String → Bool} {a : String}
    (ha : a ∈ l) (hpa : p a = true) (hothers : ∀ b ∈ l, b ≠ a → p b = false) :
    l.find? p = some a := by
  induction l with
  | nil => cases ha
  | cons x xs ih =>
      by_cases hx : x = a
      · subst hx
        exact List.find?_cons_of_pos _ hpa
      · have hpx : p x = false := hothers x (by simp) hx
        rw [List.find?_cons_of_neg _ (by simp [hpx])]
        apply ih
        · cases List.mem_cons.mp ha with
          | inl h => exact absurd h.symm hx
          | inr h => exact h
        · exact fun b hb => hothers b (by simp [hb])

theorem featStateExt (s1 s2 : FeatState) (h1 : s1.tbl = s2.tbl)
    (h2 : s1.finalFeats = s2.finalFeats) (h3 : s1.missing = s2.missing) : s1 = s2 := by
  cases s1
  cases s2
  simp only at h1 h2 h3
  rw [h1, h2, h3]

theorem featStep_join (c a : String) (ha : a ∈ COL_MAPPING c) (s : FeatState)
    (hA : hasCol s.tbl a = true) (hC : hasCol s.tbl c = false)
    (hO : ∀ a' ∈ COL_MAPPING c, a' ≠ a → hasCol s.tbl a' = false) :
    featStep s c = ⟨renameCol a c s.tbl, s.finalFeats ++ [c], s.missing⟩ ∧
    featStep ⟨renameCol a c s.tbl, s.finalFeats, s.missing⟩ c =
      ⟨renameCol a c s.tbl, s.finalFeats ++ [c], s.missing⟩ := by
  constructor
  · have hfind : (COL_MAPPING c).find? (fun b => hasCol s.tbl b) = some a :=
      findUnique ha hA (fun b hb hne => hO b hb hne)
    unfold featStep
    simp [hC, hfind]
  · have hnew : hasCol (renameCol a c s.tbl) c = true :=
      hasCol_renameCol_new a c s.tbl hA
    unfold featStep
    simp [hnew]

theorem featFold_alias_pair (c a : String) (hcCan : c ∈ canonicalCols)
    (ha : a ∈ COL_MAPPING c) :
    ∀ (cs : List String), (∀ x ∈ cs, x ∈ canonicalCols ∧ x ≠ c) →
      ∀ (t : Table) (ff m : List String),
        hasCol t a = true → hasCol t c = false →
        (∀ a' ∈ COL_MAPPING c, a' ≠ a → hasCol t a' = false) →
        (cs.foldl featStep ⟨renameCol a c t, ff, m⟩).tbl =
            renameCol a c (cs.foldl featStep ⟨t, ff, m⟩).tbl ∧
          (cs.foldl featStep ⟨renameCol a c t, ff, m⟩).finalFeats =
            (cs.foldl featStep ⟨t, ff, m⟩).finalFeats ∧
          (cs.foldl featStep ⟨renameCol a c t, ff, m⟩).missing =
            (cs.foldl featStep ⟨t, ff, m⟩).missing ∧
          hasCol (cs.foldl featStep ⟨t, ff, m⟩).tbl a = true ∧
          hasCol (cs.foldl featStep ⟨t, ff, m⟩).tbl c = false ∧
          (∀ a' ∈ COL_MAPPING c, a' ≠ a →
            hasCol (cs.foldl featStep ⟨t, ff, m⟩).tbl a' = false) := by
  intro cs
  induction cs with
  | nil =>
      intro _ t ff m hA hC hO
      exact ⟨rfl, rfl, rfl, hA, hC, hO⟩
  | cons c0 rest ih =>
      intro hsub t ff m hA hC hO
      obtain ⟨hc0Can, hc0ne⟩ := hsub c0 (by simp)
      have hsub' : ∀ x ∈ rest, x ∈ canonicalCols ∧ x ≠ c :=
        fun x hx => hsub x (by simp [hx])
      obtain ⟨hac0, hacm0⟩ := alias_not_relevant hc0Can hcCan hc0ne ha
      obtain ⟨hcc0, hccm0⟩ := canonical_not_relevant hc0Can hcCan hc0ne
      have hcolc0 : hasCol (renameCol a c t) c0 = hasCol t c0 :=
        hasCol_renameCol_ne a c c0 (Ne.symm hac0) (Ne.symm hcc0) t
      have hfindc0 : (COL_MAPPING c0).find? (fun b => hasCol (renameCol a c t) b) =
          (COL_MAPPING c0).find? (fun b => hasCol t b) := by
        apply findCongr
        intro b hb
        have hba : b ≠ a := fun h => hacm0 (h ▸ hb)
        have hbc : b ≠ c := by
          intro h
          exact (factA c0 hc0Can b hb) (h.symm ▸ hcCan)
        exact hasCol_renameCol_ne a c b hba hbc t
      rw [List.foldl_cons, List.foldl_cons]
      cases hb0 : hasCol t c0 with
      | true =>
          have hstepA : featStep ⟨t, ff, m⟩ c0 = ⟨t, ff ++ [c0], m⟩ := by
            unfold featStep
            simp [hb0]
          have hstepB : featStep ⟨renameCol a c t, ff, m⟩ c0 =
              ⟨renameCol a c t, ff ++ [c0], m⟩ := by
            unfold featStep
            simp [hcolc0, hb0]
          rw [hstepA, hstepB]
          exact ih hsub' t (ff ++ [c0]) m hA hC hO
      | false =>
          cases hfind0 : (COL_MAPPING c0).find? (fun b => hasCol t b) with
          | none =>
              have hstepA : featStep ⟨t, ff, m⟩ c0 = ⟨t, ff, m ++ [c0]⟩ := by
                unfold featStep
                simp [hb0, hfind0]
              have hstepB : featStep ⟨renameCol a c t, ff, m⟩ c0 =
                  ⟨renameCol a c t, ff, m ++ [c0]⟩ := by
                unfold featStep
                simp [hcolc0, hb0, hfindc0, hfind0]
              rw [hstepA, hstepB]
              exact ih hsub' t ff (m ++ [c0]) hA hC hO
          | some b =>
              have hbmem := List.mem_of_find?_eq_some hfind0
              have hba : b ≠ a := by
                intro h
                subst h
                exact hacm0 hbmem
              have hbc : b ≠ c := by
                intro h
                subst h
                exact (factA c0 hc0Can b hbmem) hcCan
              have hstepA : featStep ⟨t, ff, m⟩ c0 =
                  ⟨renameCol b c0 t, ff ++ [c0], m⟩ := by
                unfold featStep
                simp [hb0, hfind0]
              have hstepB : featStep ⟨renameCol a c t, ff, m⟩ c0 =
                  ⟨renameCol b c0 (renameCol a c t), ff ++ [c0], m⟩ := by
                unfold featStep
                simp [hcolc0, hb0, hfindc0, hfind0]
              have hcomm : renameCol b c0 (renameCol a c t) =
                  renameCol a c (renameCol b c0 t) :=
                renameCol_comm a c b c0 (Ne.symm hba) hac0 (Ne.symm hbc) t
              have hA2 : hasCol (renameCol b c0 t) a = true := by
                rw [hasCol_renameCol_ne b c0 a (Ne.symm hba) hac0 t]
                exact hA
              have hC2 : hasCol (renameCol b c0 t) c = false := by
                rw [hasCol_renameCol_ne b c0 c (Ne.symm hbc) hcc0 t]
                exact hC
              have hO2 : ∀ a' ∈ COL_MAPPING c, a' ≠ a →
                  hasCol (renameCol b c0 t) a' = false := by
                intro a2 ha2 hne2
                have h1' : a2 ≠ b := by
                  intro h
                  exact (factB c hcCan c0 hc0Can hcc0 a2 ha2) (h.symm ▸ hbmem)
                have h2' : a2 ≠ c0 := by
                  intro h
                  exact (factA c hcCan a2 ha2) (h.symm ▸ hc0Can)
                rw [hasCol_renameCol_ne b c0 a2 h1' h2' t]
                exact hO a2 ha2 hne2
              rw [hstepA, hstepB, hcomm]
              exact ih hsub' (renameCol b c0 t) (ff ++ [c0]) m hA2 hC2 hO2

theorem featPhase (c a : String) (hcExp : c ∈ EXPECTED_FEATURES) (ha : a ∈ COL_MAPPING c)
    (t : Table) (hA : hasCol t a = true) (hC : hasCol t c = false)
    (hO : ∀ a' ∈ COL_MAPPING c, a' ≠ a → hasCol t a' = false) :
    EXPECTED_FEATURES.foldl featStep ⟨renameCol a c t, [], []⟩ =
      EXPECTED_FEATURES.foldl featStep ⟨t, [], []⟩ := by
  obtain ⟨l1, l2, heq⟩ := List.append_of_mem hcExp
  have hnd : (l1 ++ c :: l2).Nodup := heq ▸ expectedNodup
  have hcl1 : c ∉ l1 := by
    have hdisj := (List.nodup_append.mp hnd).2.2
    intro hmem
    exact hdisj hmem (by simp)
  have hcCan : c ∈ canonicalCols := expectedSubCanonical c hcExp
  have hsubs : ∀ x ∈ l1, x ∈ canonicalCols ∧ x ≠ c := by
    intro x hx
    refine ⟨expectedSubCanonical x (by rw [heq]; exact List.mem_append_left _ hx), ?_⟩
    intro hxc
    exact hcl1 (hxc ▸ hx)
  rw [heq, List.foldl_append, List.foldl_append]
  obtain ⟨e1, e2, e3, g1, g2, g3⟩ :=
    featFold_alias_pair c a hcCan ha l1 hsubs t [] [] hA hC hO
  rw [List.foldl_cons, List.foldl_cons]
  obtain ⟨j1, j2⟩ := featStep_join c a ha (l1.foldl featStep ⟨t, [], []⟩) g1 g2 g3
  have hBstate : l1.foldl featStep ⟨renameCol a c t, [], []⟩ =
      (⟨renameCol a c (l1.foldl featStep ⟨t, [], []⟩).tbl,
        (l1.foldl featStep ⟨t, [], []⟩).finalFeats,
        (l1.foldl featStep ⟨t, [], []⟩).missing⟩ : FeatState) :=
    featStateExt _ _ e1 e2 e3
  rw [hBstate, j2, j1]

/-- C7 (amended): for a canonical column `c` with registered alias `a`, on a
table where `c` itself is absent and no other alias of `c` is present,
reconciliation of the table is identical — table contents, feature list and
errors — to reconciliation of the same table with the alias column renamed
to the canonical name.  (Without the no-other-alias proviso the claim
fails: see the counterexample.) -/
theorem c7_alias_reconcile_eq (c a : String) (t : Table)
    (hcCan : c ∈ canonicalCols) (ha : a ∈ COL_MAPPING c)
    (hC : hasCol t c = false)
    (hO : ∀ a' ∈ COL_MAPPING c, a' ≠ a → hasCol t a' = false) :
    reconcile t = reconcile (renameCol a c t) := by
  by_cases hA : hasCol t a = true
  case neg =>
      have hid : renameCol a c t = t :=
        renameCol_id a c t (by
          cases hcol : hasCol t a with
          | true => exact absurd hcol hA
          | false => rfl)
      rw [hid]
  case pos =>
      rcases List.mem_cons.mp hcCan with hceq | hcExp
      · -- c is the label column
        subst hceq
        have h1 : resolveTarget t = some (renameCol a TARGET_FEATURE t) := by
          unfold resolveTarget
          rw [if_neg (by simp [hC])]
          rw [findUnique ha hA (fun b hb hne => hO b hb hne)]
        have h2 : resolveTarget (renameCol a TARGET_FEATURE t) =
            some (renameCol a TARGET_FEATURE t) := by
          unfold resolveTarget
          rw [if_pos (hasCol_renameCol_new a TARGET_FEATURE t hA)]
        unfold reconcile
        rw [h1, h2]
      · -- c is a feature column
        have hcne : c ≠ TARGET_FEATURE := fun h => targetNotExpected (h ▸ hcExp)
        have htCan : TARGET_FEATURE ∈ canonicalCols := by
          unfold canonicalCols
          simp
        obtain ⟨haT, haTm⟩ := alias_not_relevant htCan hcCan (Ne.symm hcne) ha
        obtain ⟨hcT, hcTm⟩ := canonical_not_relevant htCan hcCan (Ne.symm hcne)
        have hcolT : hasCol (renameCol a c t) TARGET_FEATURE = hasCol t TARGET_FEATURE :=
          hasCol_renameCol_ne a c TARGET_FEATURE (Ne.symm haT) (Ne.symm hcT) t
        have hfindT : (COL_MAPPING TARGET_FEATURE).find?
              (fun b => hasCol (renameCol a c t) b) =
            (COL_MAPPING TARGET_FEATURE).find? (fun b => hasCol t b) := by
          apply findCongr
          intro b hb
          have hba : b ≠ a := by
            intro h
            exact (factB TARGET_FEATURE htCan c hcCan (Ne.symm hcne) b hb) (h ▸ ha)
          have hbc : b ≠ c := by
            intro h
            exact (factA TARGET_FEATURE htCan b hb) (h.symm ▸ hcCan)
          exact hasCol_renameCol_ne a c b hba hbc t
        have hphase := featPhase c a hcExp ha
        cases hbT : hasCol t TARGET_FEATURE with
        | true =>
            have h1 : resolveTarget t = some t := by
              unfold resolveTarget
              rw [if_pos hbT]
            have h2 : resolveTarget (renameCol a c t) = some (renameCol a c t) := by
              unfold resolveTarget
              rw [if_pos (by rw [hcolT]; exact hbT)]
            rw [reconcile_some_eq t t h1,
                reconcile_some_eq (renameCol a c t) (renameCol a c t) h2,
                hphase t hA hC hO]
        | false =>
            cases hfind : (COL_MAPPING TARGET_FEATURE).find? (fun b => hasCol t b) with
            | none =>
                have h1 : resolveTarget t = none := by
                  unfold resolveTarget
                  rw [if_neg (by simp [hbT]), hfind]
                have h2 : resolveTarget (renameCol a c t) = none := by
                  unfold resolveTarget
                  rw [if_neg (by simp [hcolT, hbT]), hfindT, hfind]
                unfold reconcile
                rw [h1, h2]
            | some b =>
                have hbmem := List.mem_of_find?_eq_some hfind
                have hba : b ≠ a := by
                  intro h
                  subst h
                  exact haTm hbmem
                have hbc : b ≠ c := by
                  intro h
                  subst h
                  exact (factA TARGET_FEATURE htCan b hbmem) hcCan
                have h1 : resolveTarget t = some (renameCol b TARGET_FEATURE t) := by
                  unfold resolveTarget
                  rw [if_neg (by simp [hbT]), hfind]
                have h2 : resolveTarget (renameCol a c t) =
                    some (renameCol b TARGET_FEATURE (renameCol a c t)) := by
                  unfold resolveTarget
                  rw [if_neg (by simp [hcolT, hbT]), hfindT, hfind]
                have hcomm : renameCol b TARGET_FEATURE (renameCol a c t) =
                    renameCol a c (renameCol b TARGET_FEATURE t) :=
                  renameCol_comm a c b TARGET_FEATURE (Ne.symm hba) haT (Ne.symm hbc) t
                have hA2 : hasCol (renameCol b TARGET_FEATURE t) a = true := by
                  rw [hasCol_renameCol_ne b TARGET_FEATURE a (Ne.symm hba) haT t]
                  exact hA
                have hC2 : hasCol (renameCol b TARGET_FEATURE t) c = false := by
                  rw [hasCol_renameCol_ne b TARGET_FEATURE c (Ne.symm hbc) hcT t]
                  exact hC
                have hO2 : ∀ a' ∈ COL_MAPPING c, a' ≠ a →
                    hasCol (renameCol b TARGET_FEATURE t) a' = false := by
                  intro a2 ha2 hne2
                  have h1' : a2 ≠ b := by
                    intro h
                    exact (factB c hcCan TARGET_FEATURE htCan hcne a2 ha2) (h.symm ▸ hbmem)
                  have h2' : a2 ≠ TARGET_FEATURE := by
                    intro h
                    exact (factA c hcCan a2 ha2) (h.symm ▸ htCan)
                  rw [hasCol_renameCol_ne b TARGET_FEATURE a2 h1' h2' t]
                  exact hO a2 ha2 hne2
                rw [reconcile_some_eq t _ h1, reconcile_some_eq (renameCol a c t) _ h2,
                    hcomm, hphase (renameCol b TARGET_FEATURE t) hA2 hC2 hO2]

theorem c7_alias_reconcile_eq_witness :
    ("thalach" ∈ canonicalCols ∧ "thalch" ∈ COL_MAPPING "thalach" ∧
      hasCol (colsOfNames ["thalch", "target"]) "thalach" = false ∧
      (∀ a' ∈ COL_MAPPING "thalach", a' ≠ "thalch" →
        hasCol (colsOfNames ["thalch", "target"]) a' = false)) ∧
    reconcile (colsOfNames ["thalch", "target"]) =
      reconcile (renameCol "thalch" "thalach" (colsOfNames ["thalch", "target"])) :=
  ⟨⟨by decide, by decide, by decide, by decide⟩,
   c7_alias_reconcile_eq "thalach" "thalch" (colsOfNames ["thalch", "target"])
     (by decide) (by decide) (by decide) (by decide)⟩

/-- C7 (counterexample to the claim as stated): `TC7` uses the alias
`thalch` for the `thalach` column but also carries a stray column named
`thalachh` — another registered alias, which sits earlier in the alias list.
Reconciliation of the aliased table renames the stray `thalachh` column
into `thalach` (leaving `thalch` behind), while on the canonically named
table the exact match wins — the two results are not identical. -/
theorem c7_counterexample_two_aliases :
    "thalch" ∈ COL_MAPPING "thalach" ∧ hasCol TC7 "thalach" = false ∧
    reconcile TC7 ≠ reconcile (renameCol "thalch" "thalach" TC7) := by
  refine ⟨by decide, by decide, by decide⟩

/-! ## Claims C1 and C3: trainer/predictor encoding mismatches -/

/-- C1 (refuting evaluation): training on the all-numeric table `T63` makes
the model consume the row `x63row` (with `cp = 3` and `thal = 1`), and the
saved feature list is the 13 raw column names.  Re-encoding the very same 13
raw values through `preprocess_input` yields a vector with `cp = 0` and
`thal = 0`: the predictor's `astype(str)` dummy names (`cp_3.0`, `thal_1.0`)
match no saved column, so alignment discards them and zero-fills the raw
columns.  The round-trip vector differs from the training vector. -/
theorem c1_trainer_predictor_mismatch :
    trainArtifact T63 = .ok resT63 ∧
    resT63.X = [x63row] ∧
    preprocess_input resT63.features R63 =
      [some 63, some 1, some 0, some 145, some 233, some 1, some 0, some 150,
       some 0, some (mkRat 23 10), some 0, some 0, some 0] ∧
    x63row.map cellToOptQ =
      [some 63, some 1, some 3, some 145, some 233, some 1, some 0, some 150,
       some 0, some (mkRat 23 10), some 0, some 0, some 1] ∧
    preprocess_input resT63.features R63 ≠ x63row.map cellToOptQ := by
  refine ⟨by decide, rfl, by decide, by decide, by decide⟩

/-- C3 (refuting evaluation): on the spec's example record with a
string-typed `sex` column (`Male`), the trainer maps the label to `1` but
then — because `string_cols` was snapshotted before the replace — still
passes `sex` to `get_dummies`, which consumes the column (its lone category
is dropped by `drop_first`); the filter `initial_features/thal_/cp_` then
excludes any `sex_*` indicator, so `sex` disappears from the saved feature
list instead of carrying the value 1. -/
theorem c3_sex_dropped_from_training :
    colIsObject (colValues TMale "sex") = true ∧
    ("sex" ∈ stringCols TMale) ∧
    trainArtifact TMale = .ok resMale ∧
    "sex" ∉ resMale.features ∧
    resMale.features = EXPECTED_FEATURES.filter (fun c => c ≠ "sex") := by
  refine ⟨by decide, by decide, by decide, by decide, by decide⟩
